import Mathlib

/-
Verification of the Context library (context.js): a cancellation and
deadline propagation primitive built on single-resolution promises.

The model is a shallow embedding of the relevant JavaScript semantics:
promises are single-resolution cells with subscription lists, reactions
run from a FIFO microtask queue, and timers live in a table keyed by
handle and fire in due-time order.  Every then-callback appearing in
context.js is one of a closed set of reactions, so reactions are a small
inductive type.  The Context operations (create, withCancel, withTimeout,
delay, get) are translated line by line from the source.
-/

namespace ContextJS

/-- JSValue models the JavaScript values that flow through the library:
cancellation causes are arbitrary values, and the two canonical causes are
Error objects carrying a message and a cancel marker flag. -/
inductive JSValue where
  | undefV
  | nullV
  | boolV (b : Bool)
  | numV (n : Int)
  | strV (s : String)
  | errV (id : Nat) (msg : String) (isCancel : Bool)
  deriving DecidableEq

/-- truthy models JavaScript truthiness: undefined, null, false, 0 and the
empty string are falsy; every object (such as an Error) is truthy. -/
def truthy : JSValue → Bool
  | .undefV => false
  | .nullV => false
  | .boolV b => b
  | .numV n => n != 0
  | .strV s => s != ""
  | .errV _ _ _ => true

/-- jsOr models the JavaScript expression a || b. -/
def jsOr (a b : JSValue) : JSValue :=
  if truthy a then a else b

/-- timeoutError models the module-level constant: new Error with message
"context expired" and the cancel flag set. -/
def timeoutError : JSValue := .errV 0 "context expired" true

/-- cancelError models the module-level constant: new Error with message
"context cancelled" and the cancel flag set. -/
def cancelError : JSValue := .errV 1 "context cancelled" true

abbrev PromiseId := Nat
abbrev TimerId := Nat
abbrev ContextId := Nat

/-- PromiseState is the settlement state of a single-resolution promise. -/
inductive PromiseState where
  | pending
  | fulfilled (v : JSValue)
  | rejected (v : JSValue)
  deriving DecidableEq

/-- Reaction enumerates the onFulfilled callbacks registered via then in
context.js; every registration passes noop as the onRejected callback.
forwardCancel is the withCancel subscription that runs
cancel(error || cancelError); timeoutFire is the withTimeout subscription
that runs cancel(timeoutError); delayCancel is the delay subscription that
runs clearTimeout(handle) then reject(error || timeoutError). -/
inductive Reaction where
  | forwardCancel (target : PromiseId)
  | timeoutFire (target : PromiseId)
  | delayCancel (handle : TimerId) (target : PromiseId)
  deriving DecidableEq

/-- TimerAction enumerates setTimeout callbacks in context.js: the only one
is the resolve function of a delay promise. -/
inductive TimerAction where
  | resolveDelay (target : PromiseId)
  deriving DecidableEq

/-- Timer is a scheduled timeout: handle, absolute due time, callback. -/
structure Timer where
  id : TimerId
  due : Nat
  action : TimerAction
  deriving DecidableEq

/-- CtxRec is the per-Context record: the cancellation signal promise (the
cancelled field of the source constructor) and the parent link kept in the
module-level parents WeakMap. -/
structure CtxRec where
  cancelled : PromiseId
  parent : Option ContextId
  deriving DecidableEq

/-- State is the event-loop world: the promise table (indexed by
PromiseId), the pending subscriptions in registration order, the FIFO
microtask queue, the live timer table, the context table (indexed by
ContextId), the current clock, and the next fresh timer handle. -/
structure State where
  promises : List PromiseState
  subs : List (PromiseId × Reaction)
  micro : List (Reaction × JSValue)
  timers : List Timer
  contexts : List CtxRec
  now : Nat
  nextTimer : Nat
  deriving DecidableEq

/-- promState reads the settlement state of a promise. -/
def promState (s : State) (p : PromiseId) : PromiseState :=
  s.promises.getD p .pending

/-- fulfillP models calling the resolve function of a promise: if the
promise is pending it becomes fulfilled and every subscription registered
on it is moved, in registration order, to the back of the microtask queue
with the fulfillment value; if it is already settled nothing happens. -/
def fulfillP (s : State) (p : PromiseId) (v : JSValue) : State :=
  if promState s p = .pending then
    { s with
      promises := s.promises.set p (.fulfilled v),
      subs := s.subs.filter (fun x => x.1 ≠ p),
      micro := s.micro ++ (s.subs.filter (fun x => x.1 = p)).map (fun x => (x.2, v)) }
  else s

/-- rejectP models calling the reject function of a promise: if pending it
becomes rejected; since every then registration in context.js passes noop
as onRejected, the subscriptions are discarded with no observable effect. -/
def rejectP (s : State) (p : PromiseId) (v : JSValue) : State :=
  if promState s p = .pending then
    { s with
      promises := s.promises.set p (.rejected v),
      subs := s.subs.filter (fun x => x.1 ≠ p) }
  else s

/-- subscribe models p.then(reaction, noop): on a pending promise the
reaction is appended to the subscription list; on an already fulfilled
promise a microtask is enqueued with the stored value; on a rejected
promise the noop onRejected makes the registration observably inert. -/
def subscribe (s : State) (p : PromiseId) (r : Reaction) : State :=
  match promState s p with
  | .pending => { s with subs := s.subs ++ [(p, r)] }
  | .fulfilled v => { s with micro := s.micro ++ [(r, v)] }
  | .rejected _ => s

/-- clearTimeoutT models clearTimeout(handle): the timer with that handle,
if still scheduled, is removed and will never fire. -/
def clearTimeoutT (s : State) (h : TimerId) : State :=
  { s with timers := s.timers.filter (fun t => t.id ≠ h) }

/-- runReaction executes one microtask, following the three callback
bodies in context.js verbatim. -/
def runReaction (s : State) : Reaction → JSValue → State
  | .forwardCancel target, v => fulfillP s target (jsOr v cancelError)
  | .timeoutFire target, _ => fulfillP s target timeoutError
  | .delayCancel handle target, v =>
      rejectP (clearTimeoutT s handle) target (jsOr v timeoutError)

/-- drain runs microtasks from the front of the queue until the queue is
empty or the fuel runs out. -/
def drain : Nat → State → State
  | 0, s => s
  | n + 1, s =>
    match s.micro with
    | [] => s
    | (r, v) :: rest => drain n (runReaction { s with micro := rest } r v)

/-- earliestTimer picks the next timer to fire: smallest due time,
earliest scheduled on a tie, matching the event-loop timer phase. -/
def earliestTimer (ts : List Timer) : Option Timer :=
  ts.foldl
    (fun acc t =>
      match acc with
      | none => some t
      | some b => if t.due < b.due then some t else some b)
    none

/-- runTimerAction executes a fired timeout callback: the only callback in
context.js is the resolve function of a delay promise, called with no
argument, so the delay promise fulfils with undefined. -/
def runTimerAction (s : State) : TimerAction → State
  | .resolveDelay target => fulfillP s target .undefV

/-- fireNext advances the clock to the earliest scheduled timer, fires it,
and then drains the microtask queue; with no timer scheduled it is the
identity. -/
def fireNext (fuel : Nat) (s : State) : State :=
  match earliestTimer s.timers with
  | none => s
  | some t =>
    drain fuel
      (runTimerAction
        { s with timers := s.timers.filter (fun x => x.id ≠ t.id), now := t.due }
        t.action)

/-- newPromise allocates a fresh pending promise. -/
def newPromise (s : State) : State × PromiseId :=
  ({ s with promises := s.promises ++ [.pending] }, s.promises.length)

/-- newContext models new Context(cancelled) followed by
parents.set(context, parent): a fresh context record is appended, holding
the given signal and parent link. -/
def newContext (s : State) (cancelled : PromiseId) (parent : Option ContextId) :
    State × ContextId :=
  ({ s with contexts := s.contexts ++ [⟨cancelled, parent⟩] }, s.contexts.length)

/-- ctxSignal reads the cancelled field of a context. -/
def ctxSignal (s : State) (c : ContextId) : PromiseId :=
  (s.contexts.getD c ⟨0, none⟩).cancelled

/-- ctxParent reads the parents WeakMap entry of a context. -/
def ctxParent (s : State) (c : ContextId) : Option ContextId :=
  (s.contexts.getD c ⟨0, none⟩).parent

/-- create translates Context.prototype.create: a new Context sharing the
same cancelled promise, registered as a child of this context. -/
def create (s : State) (c : ContextId) : State × ContextId :=
  newContext s (ctxSignal s c) (some c)

/-- WithCancelResult is the pair returned by withCancel; the cancel
function is the resolve capability of the fresh cancelled promise, so it
is represented by that promise id. -/
structure WithCancelResult where
  state : State
  context : ContextId
  cancel : PromiseId
  deriving DecidableEq

/-- withCancel translates Context.prototype.withCancel: allocate a fresh
pending promise whose resolver is the cancel function, wrap it in a new
child context, and subscribe to the parent signal the forwardCancel
callback, which runs cancel(error || cancelError). -/
def withCancel (s : State) (c : ContextId) : WithCancelResult :=
  let a := newPromise s
  let b := newContext a.1 a.2 (some c)
  ⟨subscribe b.1 (ctxSignal b.1 c) (.forwardCancel a.2), b.2, a.2⟩

/-- callCancel models invoking a cancel function: calling it with no
argument resolves the promise with undefined, calling it with a value
resolves the promise with that value. -/
def callCancel (s : State) (cancelP : PromiseId) (arg : Option JSValue) : State :=
  fulfillP s cancelP (arg.getD .undefV)

/-- newTimer models setTimeout(action, ms): a fresh handle is allocated
and the timer is scheduled at the current clock plus ms. -/
def newTimer (s : State) (ms : Nat) (a : TimerAction) : State × TimerId :=
  ({ s with
      nextTimer := s.nextTimer + 1,
      timers := s.timers ++ [⟨s.nextTimer, s.now + ms, a⟩] }, s.nextTimer)

/-- delay translates Context.prototype.delay: allocate a fresh promise,
schedule a timer that resolves it after ms, and subscribe to this context
signal the callback that clears the timer and rejects the promise with
error || timeoutError. -/
def delay (s : State) (c : ContextId) (ms : Nat) : State × PromiseId :=
  let a := newPromise s
  let b := newTimer a.1 ms (.resolveDelay a.2)
  (subscribe b.1 (ctxSignal b.1 c) (.delayCancel b.2 a.2), a.2)

/-- withTimeout translates Context.prototype.withTimeout: derive a child
via withCancel on this context, then subscribe to this.delay(ms) the
callback that cancels the child with timeoutError. -/
def withTimeout (s : State) (c : ContextId) (ms : Nat) : State × ContextId :=
  let r := withCancel s c
  let d := delay r.state c ms
  (subscribe d.1 d.2 (.timeoutFire r.cancel), r.context)

/-- initState models the module initialisation: a single root context
whose cancelled promise is new Promise with an empty executor, a promise
that can never resolve because its resolver is dropped. -/
def initState : State :=
  { promises := [.pending], subs := [], micro := [], timers := [],
    contexts := [⟨0, none⟩], now := 0, nextTimer := 0 }

/-- rootCtx is the module-level singleton context. -/
def rootCtx : ContextId := 0

/-- lookupMap models reading a caller-owned WeakMap keyed by contexts:
map.has is a hit in the association list, map.get returns the value. -/
def lookupMap (m : List (ContextId × JSValue)) (c : ContextId) : Option JSValue :=
  (m.find? (fun x => x.1 = c)).map (fun x => x.2)

/-- getAux translates the do-while loop of Context.prototype.get: check
the map for the current token, return the value on a hit, otherwise move
to the parent and repeat while the token is non-null.  The fuel bounds the
walk; the source relies on the parent chain being finite and acyclic. -/
def getAux (s : State) (m : List (ContextId × JSValue)) :
    Nat → ContextId → Option JSValue
  | 0, _ => none
  | fuel + 1, c =>
    match lookupMap m c with
    | some v => some v
    | none =>
      match ctxParent s c with
      | some p => getAux s m fuel p
      | none => none

/-- get is the ancestor walk with fuel one more than the token id, which
suffices in every well-formed state because parent links point to
strictly earlier contexts. -/
def get (s : State) (m : List (ContextId × JSValue)) (c : ContextId) :
    Option JSValue :=
  getAux s m (c + 1) c

/-- chainAux lists the tokens visited by the walk of getAux, in order. -/
def chainAux (s : State) : Nat → ContextId → List ContextId
  | 0, _ => []
  | fuel + 1, c =>
    c ::
      (match ctxParent s c with
       | some p => chainAux s fuel p
       | none => [])

/-- chain is the ancestor chain of a context, starting at the context
itself, with the same fuel as get. -/
def chain (s : State) (c : ContextId) : List ContextId :=
  chainAux s (c + 1) c

/-- MapOp enumerates the operations the walk could perform on the caller
map; the mutating operations are listed so that their absence from the
trace of get is a statement, not a vacuity. -/
inductive MapOp where
  | hasOp (c : ContextId)
  | getOp (c : ContextId)
  | setOp (c : ContextId) (v : JSValue)
  | deleteOp (c : ContextId)
  deriving DecidableEq

/-- isRead holds for the non-mutating map operations. -/
def MapOp.isRead : MapOp → Bool
  | .hasOp _ => true
  | .getOp _ => true
  | .setOp _ _ => false
  | .deleteOp _ => false

/-- getOpsAux records the map operations performed by the walk of getAux:
map.has on every visited token and map.get on the hit. -/
def getOpsAux (s : State) (m : List (ContextId × JSValue)) :
    Nat → ContextId → List MapOp
  | 0, _ => []
  | fuel + 1, c =>
    match lookupMap m c with
    | some _ => [.hasOp c, .getOp c]
    | none =>
      .hasOp c ::
        (match ctxParent s c with
         | some p => getOpsAux s m fuel p
         | none => [])

/-- getOps is the map-operation trace of get. -/
def getOps (s : State) (m : List (ContextId × JSValue)) (c : ContextId) :
    List MapOp :=
  getOpsAux s m (c + 1) c

/-- wfCtx states the structural invariant of the context table: every
parent link points to a strictly earlier context.  It holds of the initial
state and is preserved by every derivation, because a parent is recorded
exactly once, at construction, as an already-existing context. -/
def wfCtx (s : State) : Prop :=
  ∀ i p, (s.contexts.getD i ⟨0, none⟩).parent = some p → p < i

/-
Concrete scenarios used by the claims.  wc0 derives a cancellable context
P from the root, so that P plays the role of a parent whose cancellation
is under our control (the root signal itself never resolves).
-/

/-- wc0 is the scenario step let (P, cancelP) = root.withCancel(): context
id 1 with signal promise 1, whose resolver is cancelP. -/
def wc0 : WithCancelResult := withCancel initState rootCtx

/-- wcA is the scenario step let (A, cancelA) = P.withCancel(): context
id 2 with signal promise 2. -/
def wcA : WithCancelResult := withCancel wc0.state wc0.context

/-- wcB is the scenario step let (B, cancelB) = A.withCancel(): context
id 3 with signal promise 3. -/
def wcB : WithCancelResult := withCancel wcA.state wcA.context

/-- wtS ms is the scenario step C = P.withTimeout(ms): the derived child C
is context id 2 with signal promise 2; the internal delay promise is 3 and
the internal timer has handle 0, due at ms. -/
def wtS (ms : Nat) : State × ContextId := withTimeout wc0.state wc0.context ms

/-- dlS ms is the scenario step d = P.delay(ms): the delay promise is 2
and its timer has handle 0, due at ms. -/
def dlS (ms : Nat) : State × PromiseId := delay wc0.state wc0.context ms

/-- dlA ms is the scenario step d = P.delay(ms) taken after A was derived
from P via withCancel: the delay promise is 3 and its timer has handle 0;
promise 1 (the P signal) now has two subscribers, the forwarding to A and
the delay rejection. -/
def dlA (ms : Nat) : State × PromiseId := delay wcA.state wc0.context ms

/-
Helper lemmas about list indexing at a freshly appended slot and about
the state fields the individual operations leave untouched.
-/

lemma getD_append_len (l : List α) (a d : α) : (l ++ [a]).getD l.length d = a := by
  induction l with
  | nil => rfl
  | cons x xs ih => simp [List.getD, ih]

lemma set_append_len (l : List α) (a b : α) :
    (l ++ [a]).set l.length b = l ++ [b] := by
  induction l with
  | nil => rfl
  | cons x xs ih => simp [List.set, ih]

lemma promises_subscribe (s : State) (p : PromiseId) (r : Reaction) :
    (subscribe s p r).promises = s.promises := by
  unfold subscribe
  cases promState s p <;> rfl

lemma contexts_subscribe (s : State) (p : PromiseId) (r : Reaction) :
    (subscribe s p r).contexts = s.contexts := by
  unfold subscribe
  cases promState s p <;> rfl

lemma withCancel_cancel (s : State) (c : ContextId) :
    (withCancel s c).cancel = s.promises.length := rfl

lemma withCancel_state_promises (s : State) (c : ContextId) :
    (withCancel s c).state.promises = s.promises ++ [.pending] := by
  simp [withCancel, newPromise, newContext, promises_subscribe]

lemma promState_withCancel_cancel (s : State) (c : ContextId) :
    promState (withCancel s c).state (withCancel s c).cancel = .pending := by
  simp [promState, withCancel_state_promises, withCancel_cancel, getD_append_len]

lemma promState_callCancel_fresh (s : State) (c : ContextId) (arg : Option JSValue) :
    promState (callCancel (withCancel s c).state (withCancel s c).cancel arg)
      (withCancel s c).cancel = .fulfilled (arg.getD .undefV) := by
  simp [callCancel, fulfillP, promState_withCancel_cancel, promState,
    withCancel_state_promises, withCancel_cancel, set_append_len, getD_append_len]

lemma callCancel_settled (s : State) (p : PromiseId) (a : Option JSValue)
    (h : promState s p ≠ .pending) : callCancel s p a = s := by
  simp [callCancel, fulfillP, h]

lemma foldl_callCancel_settled (s : State) (p : PromiseId)
    (h : promState s p ≠ .pending) (rest : List (Option JSValue)) :
    rest.foldl (fun st a => callCancel st p a) s = s := by
  induction rest with
  | nil => rfl
  | cons a as ih => simp [callCancel_settled s p a h, ih]

/-- C1 counterexample: in the scenario root.withCancel(), calling the
paired cancel function with no argument resolves the signal with
undefined, which is not the predefined cancelled cause.  The cancel
function is the raw promise resolver, so no substitution happens at the
signal itself. -/
theorem c1_cancel_cause_counterexample :
    promState (callCancel wc0.state wc0.cancel none) wc0.cancel
      = .fulfilled .undefV ∧
    PromiseState.fulfilled .undefV ≠ .fulfilled cancelError := by
  constructor
  · decide
  · decide

/-- C1 amended: for every context returned by withCancel, calling the
paired cancel function with no argument resolves the signal with
undefined (an empty cause), and calling cancel(customError) resolves it
with customError; the predefined cancelled cause is substituted only
downstream, when the empty cause is forwarded to a child derived via
withCancel. -/
theorem c1_cancel_cause (s : State) (c : ContextId) (v : JSValue) :
    promState (callCancel (withCancel s c).state (withCancel s c).cancel none)
      (withCancel s c).cancel = .fulfilled .undefV ∧
    promState (callCancel (withCancel s c).state (withCancel s c).cancel (some v))
      (withCancel s c).cancel = .fulfilled v ∧
    promState (drain 9 (callCancel wcA.state wc0.cancel none)) wcA.cancel
      = .fulfilled cancelError := by
  exact ⟨promState_callCancel_fresh s c none,
    promState_callCancel_fresh s c (some v), by decide⟩

/-- C5: for every context derived via withCancel, the first cancel call
resolves the signal with its supplied cause (undefined when none was
supplied), any number of further cancel calls leave the whole event-loop
state literally unchanged, and a cancel call made after the parent has
already cancelled and the forwarding has run is likewise an observable
no-op. -/
theorem c5_cancel_idempotent (s : State) (c : ContextId) (a1 : Option JSValue)
    (rest : List (Option JSValue)) :
    promState (callCancel (withCancel s c).state (withCancel s c).cancel a1)
      (withCancel s c).cancel = .fulfilled (a1.getD .undefV) ∧
    rest.foldl (fun st a => callCancel st (withCancel s c).cancel a)
      (callCancel (withCancel s c).state (withCancel s c).cancel a1)
      = callCancel (withCancel s c).state (withCancel s c).cancel a1 ∧
    (∀ a, callCancel
        (drain 9 (callCancel wcA.state wc0.cancel (some (.errV 5 "boom" false))))
        wcA.cancel a
      = drain 9 (callCancel wcA.state wc0.cancel (some (.errV 5 "boom" false)))) := by
  refine ⟨promState_callCancel_fresh s c a1, ?_, ?_⟩
  · exact foldl_callCancel_settled _ _
      (by simp [promState_callCancel_fresh]) rest
  · intro a
    exact callCancel_settled _ _ a (by decide)

/-- C6: for every context, create returns a context whose signal is the
very same promise as the source signal, whose identity is fresh (not the
id of any existing context), whose parent is the source; and creation
changes no promise, no subscription, no microtask, no timer and no timer
counter, so it adds no cancel capability and schedules nothing. -/
theorem c6_create_shares_signal (s : State) (c : ContextId) :
    ctxSignal (create s c).1 (create s c).2 = ctxSignal s c ∧
    (create s c).2 ∉ List.range s.contexts.length ∧
    ctxParent (create s c).1 (create s c).2 = some c ∧
    (create s c).1.promises = s.promises ∧
    (create s c).1.subs = s.subs ∧
    (create s c).1.micro = s.micro ∧
    (create s c).1.timers = s.timers ∧
    (create s c).1.nextTimer = s.nextTimer := by
  refine ⟨?_, ?_, ?_, rfl, rfl, rfl, rfl, rfl⟩
  · simp [create, newContext, ctxSignal, getD_append_len]
  · simp [create, newContext]
  · simp [create, newContext, ctxParent, getD_append_len]

/-- C4: in the chain root with cancel capability, then A derived via
withCancel, then B derived via withCancel of A, resolving the root signal
with any cause (or none) forwards to A the cause itself when truthy and
the predefined cancelled cause otherwise, and B receives the same cause
as A; the root signal itself keeps the verbatim supplied cause. -/
theorem c4_forwarding_chain (arg : Option JSValue) :
    promState (drain 9 (callCancel wcB.state wc0.cancel arg)) wcA.cancel
      = .fulfilled (jsOr (arg.getD .undefV) cancelError) ∧
    promState (drain 9 (callCancel wcB.state wc0.cancel arg)) wcB.cancel
      = .fulfilled (jsOr (arg.getD .undefV) cancelError) ∧
    promState (drain 9 (callCancel wcB.state wc0.cancel arg)) wc0.cancel
      = .fulfilled (arg.getD .undefV) := by
  cases arg with
  | none => decide
  | some v =>
    cases h : truthy v <;>
      simp [wcB, wcA, wc0, withCancel, newPromise, newContext, subscribe, ctxSignal,
        initState, rootCtx, callCancel, fulfillP, rejectP, promState, drain,
        runReaction, jsOr, h, clearTimeoutT, List.getD]

/-- C2: for the context derived via withTimeout(ms) from a cancellable
parent, if the timer fires with the parent still pending the child signal
resolves with the expired cause and no timer remains; if the parent
cancels first the child signal resolves with the forwarded cause, the
pending timer is cleared, and firing the timer phase afterwards changes
nothing; and a parent cancellation arriving after expiry leaves the child
signal at the expired cause, so exactly one outcome ever stands. -/
theorem c2_withTimeout_race (ms : Nat) (arg : Option JSValue) :
    promState (fireNext 9 (wtS ms).1) (ctxSignal (wtS ms).1 (wtS ms).2)
      = .fulfilled timeoutError ∧
    (fireNext 9 (wtS ms).1).timers = [] ∧
    promState (drain 9 (callCancel (wtS ms).1 wc0.cancel arg))
        (ctxSignal (wtS ms).1 (wtS ms).2)
      = .fulfilled (jsOr (arg.getD .undefV) cancelError) ∧
    (drain 9 (callCancel (wtS ms).1 wc0.cancel arg)).timers = [] ∧
    fireNext 9 (drain 9 (callCancel (wtS ms).1 wc0.cancel arg))
      = drain 9 (callCancel (wtS ms).1 wc0.cancel arg) ∧
    promState (drain 9 (callCancel (fireNext 9 (wtS ms).1) wc0.cancel arg))
        (ctxSignal (wtS ms).1 (wtS ms).2)
      = .fulfilled timeoutError := by
  simp [wtS, withTimeout, delay, newTimer, wcA, wc0, withCancel, newPromise,
    newContext, subscribe, ctxSignal, initState, rootCtx, callCancel, fulfillP,
    rejectP, promState, drain, runReaction, clearTimeoutT, fireNext,
    earliestTimer, runTimerAction, List.getD]

/-- C3: for P.delay(ms) on a cancellable context P, if the timer fires
first the delay promise fulfils with undefined at time ms and no timer
remains; if P is cancelled first the delay promise rejects with the
resolved cause, falling back to the expired cause when that cause is not
truthy, the timer is cleared, and the clock has not advanced. -/
theorem c3_delay (ms : Nat) (arg : Option JSValue) :
    promState (fireNext 9 (dlS ms).1) (dlS ms).2 = .fulfilled .undefV ∧
    (fireNext 9 (dlS ms).1).timers = [] ∧
    (fireNext 9 (dlS ms).1).now = ms ∧
    promState (drain 9 (callCancel (dlS ms).1 wc0.cancel arg)) (dlS ms).2
      = .rejected (jsOr (arg.getD .undefV) timeoutError) ∧
    (drain 9 (callCancel (dlS ms).1 wc0.cancel arg)).timers = [] ∧
    (drain 9 (callCancel (dlS ms).1 wc0.cancel arg)).now = 0 := by
  simp [dlS, delay, newTimer, wc0, withCancel, newPromise,
    newContext, subscribe, ctxSignal, initState, rootCtx, callCancel, fulfillP,
    rejectP, promState, drain, runReaction, clearTimeoutT, fireNext,
    earliestTimer, runTimerAction, List.getD]

/-- C10: if P.delay(ms) has already fulfilled because its timer fired,
a later cancellation of P leaves the delay promise fulfilled with
undefined: the delayCancel reaction clears an already-gone timer and its
rejection attempt is a no-op on the settled promise. -/
theorem c10_late_cancel_after_delay (ms : Nat) (v : JSValue) :
    promState (drain 9 (callCancel (fireNext 9 (dlS ms).1) wc0.cancel (some v)))
        (dlS ms).2 = .fulfilled .undefV ∧
    (drain 9 (callCancel (fireNext 9 (dlS ms).1) wc0.cancel (some v))).timers
      = [] := by
  simp [dlS, delay, newTimer, wc0, withCancel, newPromise,
    newContext, subscribe, ctxSignal, initState, rootCtx, callCancel, fulfillP,
    rejectP, promState, drain, runReaction, clearTimeoutT, fireNext,
    earliestTimer, runTimerAction, List.getD]

/-- C9: cancelling P with any falsy but supplied cause v is downstream
indistinguishable from cancelling with no cause: the child A derived via
withCancel is cancelled with the predefined cancelled cause, the pending
P.delay rejects with the predefined expired cause, and only the P signal
itself retains the verbatim falsy value v. -/
theorem c9_falsy_cause (ms : Nat) (v : JSValue) (h : truthy v = false) :
    promState (drain 9 (callCancel (dlA ms).1 wc0.cancel (some v))) wcA.cancel
      = .fulfilled cancelError ∧
    promState (drain 9 (callCancel (dlA ms).1 wc0.cancel (some v))) (dlA ms).2
      = .rejected timeoutError ∧
    promState (drain 9 (callCancel (dlA ms).1 wc0.cancel (some v))) wc0.cancel
      = .fulfilled v := by
  simp [dlA, delay, newTimer, wcA, wc0, withCancel, newPromise,
    newContext, subscribe, ctxSignal, initState, rootCtx, callCancel, fulfillP,
    rejectP, promState, drain, runReaction, jsOr, h, clearTimeoutT,
    earliestTimer, runTimerAction, List.getD]

/-- C9 witness: the falsy cause 0 with a 5 millisecond delay. -/
theorem c9_falsy_cause_witness :
    truthy (.numV 0) = false ∧
    promState (drain 9 (callCancel (dlA 5).1 wc0.cancel (some (.numV 0)))) wcA.cancel
      = .fulfilled cancelError ∧
    promState (drain 9 (callCancel (dlA 5).1 wc0.cancel (some (.numV 0)))) (dlA 5).2
      = .rejected timeoutError :=
  ⟨by decide, (c9_falsy_cause 5 (.numV 0) (by decide)).1,
    (c9_falsy_cause 5 (.numV 0) (by decide)).2.1⟩

/-
Storage scenario for the spec example: value set for R, child C derived
via create, unrelated context D derived from the root.
-/

/-- csS is the scenario step C = R.create() where R is the context of
wc0: C is context id 2 sharing the R signal. -/
def csS : State × ContextId := create wc0.state wc0.context

/-- wcD derives an unrelated context D from the root, on a branch that
does not pass through R. -/
def wcD : WithCancelResult := withCancel csS.1 rootCtx

/-- m7 is a caller map holding a value for R only. -/
def m7 : List (ContextId × JSValue) := [(wc0.context, .strV "v")]

/-- m7b is a caller map holding values for both C and R, to exercise the
nearest-ancestor-wins rule. -/
def m7b : List (ContextId × JSValue) :=
  [(csS.2, .strV "w"), (wc0.context, .strV "v")]

lemma getD_append_lt (l : List α) (a d : α) (i : Nat) (h : i < l.length) :
    (l ++ [a]).getD i d = l.getD i d := by
  induction l generalizing i with
  | nil => simp at h
  | cons x xs ih =>
    cases i with
    | zero => rfl
    | succ n => simp [List.getD] at ih ⊢; exact ih n (by simpa using h)

lemma getD_append_gt (l : List α) (a d : α) (i : Nat) (h : l.length < i) :
    (l ++ [a]).getD i d = d := by
  induction l generalizing i with
  | nil =>
    cases i with
    | zero => simp at h
    | succ n => cases n <;> simp [List.getD]
  | cons x xs ih =>
    cases i with
    | zero => simp at h
    | succ n => simp [List.getD] at ih ⊢; exact ih n (by simpa using h)

lemma getAux_eq_findSome (s : State) (m : List (ContextId × JSValue)) :
    ∀ (fuel : Nat) (c : ContextId),
      getAux s m fuel c = (chainAux s fuel c).findSome? (fun t => lookupMap m t) := by
  intro fuel
  induction fuel with
  | zero => intro c; rfl
  | succ n ih =>
    intro c
    cases hl : lookupMap m c with
    | none =>
      cases hp : ctxParent s c <;>
        simp [getAux, chainAux, List.findSome?, hl, hp, ih]
    | some v => simp [getAux, chainAux, List.findSome?, hl]

lemma wfCtx_initState : wfCtx initState := by
  intro i p h
  match i with
  | 0 => simp [initState, List.getD] at h
  | Nat.succ n => simp [initState, List.getD] at h

lemma wfCtx_append (s : State) (l : List CtxRec) (sig : PromiseId) (c : ContextId)
    (hw : wfCtx s) (hc : c < s.contexts.length)
    (hl : l = s.contexts ++ [⟨sig, some c⟩]) :
    ∀ i p, (l.getD i ⟨0, none⟩).parent = some p → p < i := by
  subst hl
  intro i p h
  rcases lt_trichotomy i s.contexts.length with hi | hi | hi
  · rw [getD_append_lt _ _ _ _ hi] at h
    exact hw i p h
  · subst hi
    rw [getD_append_len] at h
    simp at h
    subst h
    exact hc
  · rw [getD_append_gt _ _ _ _ hi] at h
    simp at h

lemma contexts_withCancel (s : State) (c : ContextId) :
    (withCancel s c).state.contexts
      = s.contexts ++ [⟨s.promises.length, some c⟩] := by
  simp [withCancel, newPromise, newContext, contexts_subscribe]

lemma contexts_withTimeout (s : State) (c : ContextId) (ms : Nat) :
    (withTimeout s c ms).1.contexts
      = s.contexts ++ [⟨s.promises.length, some c⟩] := by
  simp [withTimeout, delay, newTimer, newPromise, contexts_subscribe,
    contexts_withCancel]

lemma wfCtx_create (s : State) (c : ContextId)
    (hw : wfCtx s) (hc : c < s.contexts.length) :
    wfCtx (create s c).1 :=
  wfCtx_append s _ (ctxSignal s c) c hw hc (by simp [create, newContext])

lemma wfCtx_withCancel (s : State) (c : ContextId)
    (hw : wfCtx s) (hc : c < s.contexts.length) :
    wfCtx (withCancel s c).state :=
  wfCtx_append s _ s.promises.length c hw hc (contexts_withCancel s c)

lemma wfCtx_withTimeout (s : State) (c : ContextId) (ms : Nat)
    (hw : wfCtx s) (hc : c < s.contexts.length) :
    wfCtx (withTimeout s c ms).1 :=
  wfCtx_append s _ s.promises.length c hw hc (contexts_withTimeout s c ms)

lemma getAux_fuel_irrelevant (s : State) (hw : wfCtx s)
    (m : List (ContextId × JSValue)) :
    ∀ (c : ContextId) (fuel : Nat), c + 1 ≤ fuel →
      getAux s m fuel c = get s m c := by
  intro c
  induction c using Nat.strong_induction_on with
  | _ c ih =>
    intro fuel
    cases fuel with
    | zero => exact fun hf => absurd hf (Nat.not_succ_le_zero c)
    | succ f =>
      intro hf
      have hcf : c ≤ f := Nat.le_of_succ_le_succ hf
      show getAux s m (f + 1) c = getAux s m (c + 1) c
      cases hl : lookupMap m c with
      | some v => simp [getAux, hl]
      | none =>
        cases hp : ctxParent s c with
        | none => simp [getAux, hl, hp]
        | some p =>
          have hpc : p < c := hw c p hp
          have h1 : getAux s m f p = getAux s m (p + 1) p :=
            ih p hpc f (Nat.le_trans hpc hcf)
          have h2 : getAux s m c p = getAux s m (p + 1) p :=
            ih p hpc c hpc
          simp [getAux, hl, hp, h1, h2, get]

lemma getOpsAux_reads (s : State) (m : List (ContextId × JSValue)) :
    ∀ (fuel : Nat) (c : ContextId),
      ((getOpsAux s m fuel c).all MapOp.isRead) = true := by
  intro fuel
  induction fuel with
  | zero => intro c; rfl
  | succ n ih =>
    intro c
    cases hl : lookupMap m c with
    | some v => simp [getOpsAux, hl, MapOp.isRead]
    | none =>
      cases hp : ctxParent s c with
      | none => simp [getOpsAux, hl, hp, MapOp.isRead]
      | some p => simp [getOpsAux, hl, hp, MapOp.isRead, ih]

/-- C7: for every state, map and context, get returns the first value
found along the ancestor chain, starting at the context itself (nearest
ancestor wins), and in the spec scenario the created child C reads the
value stored for R, the unrelated context D reads absent, R reads its own
value, and an entry stored on C itself shadows the entry stored on R. -/
theorem c7_get_nearest_ancestor (s : State) (m : List (ContextId × JSValue))
    (c : ContextId) :
    get s m c = (chain s c).findSome? (fun t => lookupMap m t) ∧
    get wcD.state m7 csS.2 = some (.strV "v") ∧
    get wcD.state m7 wcD.context = none ∧
    get wcD.state m7 wc0.context = some (.strV "v") ∧
    get wcD.state m7b csS.2 = some (.strV "w") :=
  ⟨getAux_eq_findSome s m (c + 1) c, by decide, by decide, by decide, by decide⟩

/-- C8: the ancestor walk of get terminates and is read-only.  The parent
chain invariant wfCtx (every parent link points to a strictly earlier
context) holds initially and is preserved by create, withCancel and
withTimeout, because each records the parent once, at construction, as an
already-existing context; under wfCtx the walk is independent of any fuel
of at least c + 1, hence it stabilises after finitely many steps; and the
trace of map operations the walk performs contains only reads. -/
theorem c8_get_terminates_readonly :
    wfCtx initState ∧
    (∀ (s : State) (c : ContextId), wfCtx s → c < s.contexts.length →
      wfCtx (create s c).1) ∧
    (∀ (s : State) (c : ContextId), wfCtx s → c < s.contexts.length →
      wfCtx (withCancel s c).state) ∧
    (∀ (s : State) (c : ContextId) (ms : Nat), wfCtx s → c < s.contexts.length →
      wfCtx (withTimeout s c ms).1) ∧
    (∀ (s : State) (m : List (ContextId × JSValue)) (c : ContextId) (fuel : Nat),
      wfCtx s → c + 1 ≤ fuel → getAux s m fuel c = get s m c) ∧
    (∀ (s : State) (m : List (ContextId × JSValue)) (c : ContextId),
      ((getOps s m c).all MapOp.isRead) = true) :=
  ⟨wfCtx_initState,
    fun s c hw hc => wfCtx_create s c hw hc,
    fun s c hw hc => wfCtx_withCancel s c hw hc,
    fun s c ms hw hc => wfCtx_withTimeout s c ms hw hc,
    fun s m c fuel hw hf => getAux_fuel_irrelevant s hw m c fuel hf,
    fun s m c => getOpsAux_reads s m (c + 1) c⟩

/-- C8 witness: the invariant holds after deriving from the root, the
walk from the root with surplus fuel equals get, and the trace of the
walk from the root is all reads. -/
theorem c8_get_terminates_readonly_witness :
    wfCtx (create initState rootCtx).1 ∧
    getAux initState [] 7 rootCtx = get initState [] rootCtx ∧
    ((getOps initState [] rootCtx).all MapOp.isRead) = true :=
  ⟨c8_get_terminates_readonly.2.1 initState rootCtx
      c8_get_terminates_readonly.1 (by decide),
    c8_get_terminates_readonly.2.2.2.2.1 initState [] rootCtx 7
      c8_get_terminates_readonly.1 (by decide),
    c8_get_terminates_readonly.2.2.2.2.2 initState [] rootCtx⟩

end ContextJS
